import Mathlib

/-!
Verification development for the doodle-labs network-monitor scheduler
(`doodle_monitor/optimized_payload_monitor.py` and its standalone copy in
`doodle_monitor/schedule_tester.py`).

The Python code is embedded shallowly:

* `permutations2` models `itertools.permutations(nodes, 2)` positionally
  (pairs of elements drawn at distinct indices, in lexicographic index
  order), exactly as the library function behaves.
* The greedy slot-building `while` loop of `edge_coloring_schedule` is
  embedded as `scheduleAux` with an explicit fuel argument; one pass over
  the edge list is `slotPass`, a left fold of `slotStep`.  Each pass adds
  at least one edge whenever unused edges remain, so fuel `edges.length`
  is enough for the loop to reach its fixpoint (proved below); the Python
  loop is unbounded but performs exactly these passes.
* Wall-clock arithmetic (`time.time()`, `math.floor`, the module-level
  timing constants) is modelled over `ℚ` with exact arithmetic.
* The body of `edge_slot_runner` is modelled as a pure decision function
  `edge_slot_runner_action` returning which branch the tick takes; the
  `SlotAction.probe` constructor is the only branch in which `run_ping` /
  `run_iperf` are invoked and hence the only branch that publishes any
  ping or iperf outcome record.
* `run_iperf` is modelled over the three `subprocess` outcomes and an
  abstract `json.loads`-success predicate; the function returns the
  record it publishes on `doodle_monitor/iperf_result`.
-/

/-- A directed test edge `(client, server)`, i.e. `(initiator, responder)`. -/
abbrev Edge := String × String

/-- Positional model of `itertools.permutations(nodes, 2)`: all pairs of
elements at distinct indices, ordered lexicographically by index pair. -/
def permutations2 (l : List String) : List Edge :=
  l.enum.flatMap (fun p =>
    (l.enum.filter (fun q => q.1 ≠ p.1)).map (fun q => (p.2, q.2)))

/-- The mutable state of one pass of the slot-building loop in
`edge_coloring_schedule`: the slot under construction, the `seen` node set
and the global `used` edge set (sets are modelled as duplicate-free lists,
only membership is ever queried). -/
structure PassState where
  slot : List Edge
  seen : List String
  used : List Edge
deriving Repr, DecidableEq

/-- One iteration of the inner `for a, b in edges` loop of
`edge_coloring_schedule`: skip an already-used edge, otherwise add it to the
slot when neither endpoint is already booked in this slot. -/
def slotStep (st : PassState) (e : Edge) : PassState :=
  if e ∈ st.used then st
  else if e.1 ∈ st.seen ∨ e.2 ∈ st.seen then st
  else ⟨st.slot ++ [e], st.seen ++ [e.1, e.2], st.used ++ [e]⟩

/-- One pass of the `while` loop of `edge_coloring_schedule`: scan every
edge once, starting from an empty slot and empty `seen` set. -/
def slotPass (edges : List Edge) (used : List Edge) : PassState :=
  edges.foldl slotStep ⟨[], [], used⟩

/-- The `while len(used) < len(edges)` loop of `edge_coloring_schedule`,
with explicit fuel.  Fuel `edges.length` suffices to reach the loop's
fixpoint because every pass places at least one new edge (proved below). -/
def scheduleAux (edges : List Edge) : Nat → List Edge → List (List Edge)
  | 0, _ => []
  | fuel + 1, used =>
    if used.length < edges.length then
      (slotPass edges used).slot :: scheduleAux edges fuel (slotPass edges used).used
    else []

/-- `edge_coloring_schedule(nodes, orange_box_ips)` from
`optimized_payload_monitor.py` (lines 28-71): enumerate all ordered pairs,
drop those whose client is an orange-box IP, then greedily pack the rest
into conflict-free slots. -/
def edge_coloring_schedule (nodes : List String) (orange_box_ips : List String) :
    List (List Edge) :=
  let edges := (permutations2 nodes).filter (fun e => decide (e.1 ∉ orange_box_ips))
  scheduleAux edges edges.length []

/-- The candidate edge set of `edge_coloring_schedule` (the `edges` local
variable of the source after the orange-box filter): all ordered pairs of
distinct positions whose client is not an orange-box IP. -/
def candidate_edges (nodes orange_box_ips : List String) : List Edge :=
  (permutations2 nodes).filter (fun e => decide (e.1 ∉ orange_box_ips))

/-- The verification pass at the end of `edge_coloring_schedule` on a single
slot: `True` means the `for a, b in slot` loop finishes without raising
`ValueError`. -/
def verify_slot (seen : List String) : List Edge → Bool
  | [] => true
  | e :: s =>
    if e.1 ∈ seen ∨ e.2 ∈ seen then false
    else verify_slot (seen ++ [e.1, e.2]) s

/-- The whole verification loop of `edge_coloring_schedule`: `True` means no
slot raises `ValueError`. -/
def schedule_ok (schedule : List (List Edge)) : Bool :=
  schedule.all (fun s => verify_slot [] s)

/-- All endpoints of a slot, initiators and responders interleaved; the slot
is a matching exactly when this list has no duplicate. -/
def slotEndpoints (s : List Edge) : List String :=
  s.flatMap (fun e => [e.1, e.2])

/-- Proof-side restatement of one slot-building pass: greedily take each
edge whose endpoints are still free.  `slotPass` is proved equal to this on
duplicate-free edge lists. -/
def greedy (seen : List String) : List Edge → List Edge
  | [] => []
  | e :: es =>
    if e.1 ∈ seen ∨ e.2 ∈ seen then greedy seen es
    else e :: greedy (seen ++ [e.1, e.2]) es

/-! ### Timing constants (`optimized_payload_monitor.py`, lines 73-79) -/

def IPERF_TIMEOUT_BUFFER : ℚ := 0.4

def PING_TIMEOUT_BUFFER : ℚ := 0.15

def GENERAL_TIMING_BUFFER : ℚ := 0.1

def IPERF_TIME : ℚ := 1.0

def SLOT_LENGTH : ℚ :=
  IPERF_TIME + IPERF_TIMEOUT_BUFFER + PING_TIMEOUT_BUFFER + GENERAL_TIMING_BUFFER

/-- `slot_start = math.floor(now / SLOT_LENGTH) * SLOT_LENGTH` from
`edge_slot_runner`. -/
def slot_start (now : ℚ) : ℚ :=
  (Int.floor (now / SLOT_LENGTH) : ℚ) * SLOT_LENGTH

/-- `end_start_window = slot_start + GENERAL_TIMING_BUFFER`. -/
def end_start_window (now : ℚ) : ℚ :=
  slot_start now + GENERAL_TIMING_BUFFER

/-- `slot_end = slot_start + SLOT_LENGTH`. -/
def slot_end (now : ℚ) : ℚ :=
  slot_start now + SLOT_LENGTH

/-- `slot_idx = int(now // SLOT_LENGTH) % self.num_slots` from
`edge_slot_runner` (Python `%` returns a value in `[0, num_slots)` for a
positive modulus, which `Int.emod` matches). -/
def slot_index (now : ℚ) (num_slots : ℕ) : ℕ :=
  (Int.floor (now / SLOT_LENGTH) % (num_slots : ℤ)).toNat

/-- `now_is_in_start_window = slot_start <= now < end_start_window`. -/
def now_is_in_start_window (now : ℚ) : Prop :=
  slot_start now ≤ now ∧ now < end_start_window now

instance (now : ℚ) : Decidable (now_is_in_start_window now) := by
  unfold now_is_in_start_window; infer_instance

/-- The first matching `for client, server in slotted_comms` loop of
`edge_slot_runner`: the first edge whose client is this node, if any. -/
def resolve_partner (slot : List Edge) (my_ip : String) : Option String :=
  match slot.find? (fun e => e.1 == my_ip) with
  | some e => some e.2
  | none => none

/-- Which branch one invocation of `edge_slot_runner` takes.  Only the
`probe` branch calls `run_ping` (and, on ping success, `run_iperf`), so only
the `probe` branch publishes any ping or iperf outcome record. -/
inductive SlotAction where
  /-- `if not self.schedule: return` -/
  | noSchedule
  /-- outside the start window: wait for the next slot -/
  | outsideWindow
  /-- `if not my_test_partner`: idle this slot -/
  | inactive
  /-- partner resolved but absent from `self.reachable`: skip, no probe -/
  | unreachable (partner : String)
  /-- run `run_ping` (then possibly `run_iperf`) against the partner -/
  | probe (partner : String)
deriving Repr, DecidableEq

/-- The decision taken by one tick of `edge_slot_runner`
(`optimized_payload_monitor.py`, lines 129-188), as a pure function of the
schedule, own IP, reachable set and current time.  Note Python's
`if not my_test_partner` is falsy both for `None` and for the empty
string. -/
def edge_slot_runner_action (schedule : List (List Edge)) (my_ip : String)
    (reachable : List String) (now : ℚ) : SlotAction :=
  if schedule = [] then .noSchedule
  else
    let num_slots := schedule.length
    let slotted_comms := schedule.getD (slot_index now num_slots) []
    if ¬ now_is_in_start_window now then .outsideWindow
    else
      match resolve_partner slotted_comms my_ip with
      | none => .inactive
      | some partner =>
        if partner = "" then .inactive
        else if partner ∉ reachable then .unreachable partner
        else .probe partner

/-- The partner probed by a tick, when the tick probes at all. -/
def probe_target : SlotAction → Option String
  | .probe partner => some partner
  | _ => none

/-! ### `run_iperf` (`optimized_payload_monitor.py`, lines 262-303) -/

/-- Outcome of the `subprocess.check_output` call in `run_iperf`. -/
inductive IperfSubproc where
  /-- exit status 0; `out` is the captured stdout/stderr -/
  | success (out : String)
  /-- non-zero exit (`subprocess.CalledProcessError`), with `e.output` -/
  | calledProcessError (out : Option String)
  /-- `subprocess.TimeoutExpired` -/
  | timeoutExpired
deriving Repr, DecidableEq

/-- The `out, ok` pair after the first `try/except` block of `run_iperf`. -/
def iperf_subproc_out : IperfSubproc → String × Bool
  | .success out => (out, true)
  | .calledProcessError out => (out.getD "CalledProcessError with no output", false)
  | .timeoutExpired => ("Test timed out", false)

/-- The record `run_iperf` publishes on `doodle_monitor/iperf_result`. -/
structure IperfResult where
  role : String
  ip : String
  ok : Bool
  raw : String
deriving Repr, DecidableEq

/-- `json.dumps(\x7b"error": "Invalid JSON output from iperf"\x7d)`, the raw
payload substituted when the iperf output fails to parse. -/
def IPERF_INVALID_JSON : String :=
  "\x7b\"error\": \"Invalid JSON output from iperf\"\x7d"

/-- The second half of `run_iperf`: parse the output with `json.loads`
(abstracted as the success predicate `json_decodes`, since which strings
parse is a property of the JSON grammar, not of this code), absorb a parse
failure by substituting `IPERF_INVALID_JSON` for `raw`, and build the single
published record.  The `ok` flag is whatever the subprocess step produced;
the parse branch never touches it. -/
def run_iperf (ip : String) (sub : IperfSubproc) (json_decodes : String → Bool) :
    IperfResult :=
  let out := (iperf_subproc_out sub).1
  let ok := (iperf_subproc_out sub).2
  if json_decodes out then ⟨"client", ip, ok, out⟩
  else ⟨"client", ip, ok, IPERF_INVALID_JSON⟩

/-! ### `EdgePayloadMonitor.__init__` (lines 90-118) -/

/-- The state a successfully constructed `EdgePayloadMonitor` carries. -/
structure MonitorState where
  my_ip : String
  node_list : List String
  schedule : List (List Edge)
  num_slots : ℕ
deriving Repr

/-- `EdgePayloadMonitor.__init__`, up to the point where the timer is
created: build `node_list`, look the hostname up in the mapping
(`dict.get`), fail with `RuntimeError` when absent — before any schedule is
built — and otherwise build the schedule.  The mapping is modelled as an
association list. -/
def monitor_init (hostname : String) (hostname_to_ip_mapping : List (String × String))
    (orange_box_ips : List String) : Except String MonitorState :=
  let node_list :=
    ((hostname_to_ip_mapping.map Prod.snd) ++ orange_box_ips).mergeSort
      (fun a b => a ≤ b)
  match hostname_to_ip_mapping.lookup hostname with
  | none =>
    .error ("Unknown hostname " ++ hostname ++ ", cannot determine my IP address.")
  | some my_ip =>
    let schedule := edge_coloring_schedule node_list orange_box_ips
    .ok ⟨my_ip, node_list, schedule, schedule.length⟩

namespace ScheduleTester

/-- The textual duplicate of `itertools.permutations(nodes, 2)` usage in
`schedule_tester.py`. -/
def permutations2 (l : List String) : List Edge :=
  l.enum.flatMap (fun p =>
    (l.enum.filter (fun q => q.1 ≠ p.1)).map (fun q => (p.2, q.2)))

/-- Inner-loop body of the duplicated `edge_coloring_schedule` in
`schedule_tester.py` (lines 54-60 there, textually identical). -/
def slotStep (st : PassState) (e : Edge) : PassState :=
  if e ∈ st.used then st
  else if e.1 ∈ st.seen ∨ e.2 ∈ st.seen then st
  else ⟨st.slot ++ [e], st.seen ++ [e.1, e.2], st.used ++ [e]⟩

/-- One pass of the duplicated `while` loop in `schedule_tester.py`. -/
def slotPass (edges : List Edge) (used : List Edge) : PassState :=
  edges.foldl slotStep ⟨[], [], used⟩

/-- The duplicated `while len(used) < len(edges)` loop in
`schedule_tester.py`, with the same fuel convention as the monitor copy. -/
def scheduleAux (edges : List Edge) : Nat → List Edge → List (List Edge)
  | 0, _ => []
  | fuel + 1, used =>
    if used.length < edges.length then
      (slotPass edges used).slot :: scheduleAux edges fuel (slotPass edges used).used
    else []

/-- `edge_coloring_schedule` as duplicated verbatim in `schedule_tester.py`
(lines 28-71 there). -/
def edge_coloring_schedule (nodes : List String) (orange_box_ips : List String) :
    List (List Edge) :=
  let edges := (permutations2 nodes).filter (fun e => decide (e.1 ∉ orange_box_ips))
  scheduleAux edges edges.length []

end ScheduleTester

/-! ## Facts about `permutations2` and the candidate edge set -/

/-- The entries of `List.enum` are pairwise distinct (their indices are). -/
theorem enum_entries_nodup {α : Type _} (l : List α) : l.enum.Nodup :=
  List.Nodup.of_map Prod.fst (List.nodup_enum_map_fst l)

/-- An entry of `List.enum` records the element at its index. -/
theorem enum_entry_getElem {α : Type _} {l : List α} {p : ℕ × α} (hp : p ∈ l.enum) :
    l[p.1]? = some p.2 := by
  obtain ⟨i, a⟩ := p
  simpa using List.mk_mem_enum_iff_getElem?.mp hp

/-- Over a duplicate-free list, `enum` entries with equal values are equal. -/
theorem enum_entry_inj {α : Type _} {l : List α} (hl : l.Nodup) {p q : ℕ × α}
    (hp : p ∈ l.enum) (hq : q ∈ l.enum) (hval : p.2 = q.2) : p = q := by
  have hp2 := enum_entry_getElem hp
  have hq2 := enum_entry_getElem hq
  have hlen : p.1 < l.length := by
    by_contra hge
    rw [List.getElem?_eq_none (Nat.le_of_not_lt hge)] at hp2
    exact Option.noConfusion hp2
  have hidx : p.1 = q.1 := by
    apply List.getElem?_inj hlen hl
    rw [hp2, hq2, hval]
  obtain ⟨i, a⟩ := p
  obtain ⟨j, b⟩ := q
  simp only [Prod.mk.injEq]
  exact ⟨hidx, hval⟩

/-- Membership in `permutations2` over a duplicate-free list: exactly the
ordered pairs of distinct elements. -/
theorem pair_mem_permutations2 {l : List String} (hl : l.Nodup) (a b : String) :
    (a, b) ∈ permutations2 l ↔ a ∈ l ∧ b ∈ l ∧ a ≠ b := by
  unfold permutations2
  simp only [List.mem_flatMap, List.mem_map, List.mem_filter]
  constructor
  · rintro ⟨p, hp, q, ⟨hq, hqp⟩, heq⟩
    have hpa : p.2 = a := congrArg Prod.fst heq
    have hqb : q.2 = b := congrArg Prod.snd heq
    have hamem : a ∈ l := by
      have := enum_entry_getElem hp
      rw [hpa] at this
      exact List.mem_iff_getElem?.mpr ⟨p.1, this⟩
    have hbmem : b ∈ l := by
      have := enum_entry_getElem hq
      rw [hqb] at this
      exact List.mem_iff_getElem?.mpr ⟨q.1, this⟩
    refine ⟨hamem, hbmem, ?_⟩
    intro hab
    have : q = p := enum_entry_inj hl hq hp (by rw [hpa, hqb, hab])
    rw [this] at hqp
    simp at hqp
  · rintro ⟨ha, hb, hab⟩
    obtain ⟨i, hi⟩ := List.getElem?_of_mem ha
    obtain ⟨j, hj⟩ := List.getElem?_of_mem hb
    refine ⟨(i, a), List.mk_mem_enum_iff_getElem?.mpr (by simpa using hi),
      (j, b), ⟨List.mk_mem_enum_iff_getElem?.mpr (by simpa using hj), ?_⟩, rfl⟩
    simp only [decide_eq_true_eq]
    intro hij
    apply hab
    rw [hij] at hj
    rw [hi] at hj
    exact Option.some.inj hj

/-- Over a duplicate-free list, `permutations2` has no duplicate pair. -/
theorem permutations2_nodup {l : List String} (hl : l.Nodup) :
    (permutations2 l).Nodup := by
  unfold permutations2
  rw [List.nodup_flatMap]
  constructor
  · intro p _
    refine List.Nodup.map_on ?_ ((enum_entries_nodup l).filter _)
    intro q hq r hr heq
    have h2 : q.2 = r.2 := by simpa using heq
    exact enum_entry_inj hl (List.mem_of_mem_filter hq) (List.mem_of_mem_filter hr) h2
  · refine List.Pairwise.imp_of_mem ?_ (enum_entries_nodup l)
    intro p q hp hq hne
    intro e hep heq
    simp only [List.mem_map, List.mem_filter] at hep heq
    obtain ⟨r, _, hre⟩ := hep
    obtain ⟨s, _, hse⟩ := heq
    have h1 : p.2 = e.1 := by rw [← hre]
    have h2 : q.2 = e.1 := by rw [← hse]
    exact absurd (enum_entry_inj hl hp hq (h1.trans h2.symm)) hne


/-- Membership in the candidate edge set over a duplicate-free node list. -/
theorem mem_candidate_edges {nodes obs : List String} (hn : nodes.Nodup) (a b : String) :
    (a, b) ∈ candidate_edges nodes obs ↔
      a ∈ nodes ∧ b ∈ nodes ∧ a ≠ b ∧ a ∉ obs := by
  unfold candidate_edges
  rw [List.mem_filter, pair_mem_permutations2 hn]
  simp only [decide_eq_true_eq]
  tauto

/-- The candidate edge set has no duplicate edge. -/
theorem candidate_edges_nodup {nodes obs : List String} (hn : nodes.Nodup) :
    (candidate_edges nodes obs).Nodup :=
  (permutations2_nodup hn).filter _

/-- Every candidate edge joins two distinct nodes. -/
theorem candidate_edges_irrefl {nodes obs : List String} (hn : nodes.Nodup) :
    ∀ e ∈ candidate_edges nodes obs, e.1 ≠ e.2 := by
  intro e he
  obtain ⟨a, b⟩ := e
  exact ((mem_candidate_edges hn a b).mp he).2.2.1

/-! ## Facts about the greedy pass -/

/-- The edges a greedy pass picks form a sublist of the scanned edges. -/
theorem greedy_sublist (seen : List String) (es : List Edge) :
    List.Sublist (greedy seen es) es := by
  induction es generalizing seen with
  | nil => simp [greedy]
  | cons e es ih =>
    rw [greedy]
    by_cases h : e.1 ∈ seen ∨ e.2 ∈ seen
    · rw [if_pos h]
      exact (ih seen).cons e
    · rw [if_neg h]
      exact (ih (seen ++ [e.1, e.2])).cons₂ e

/-- A greedy pass starting from an empty `seen` set over a nonempty edge
list always picks its first edge, hence is nonempty. -/
theorem greedy_ne_nil {es : List Edge} (h : es ≠ []) : greedy [] es ≠ [] := by
  cases es with
  | nil => exact absurd rfl h
  | cons e es => simp [greedy]

/-- A greedy pass never books an endpoint twice: the `seen` set stays
duplicate-free when extended by all endpoints the pass picks, provided every
scanned edge joins two distinct nodes. -/
theorem greedy_endpoints_nodup {es : List Edge} (hne : ∀ e ∈ es, e.1 ≠ e.2) :
    ∀ seen : List String, seen.Nodup →
      (seen ++ slotEndpoints (greedy seen es)).Nodup := by
  induction es with
  | nil =>
    intro seen hs
    simpa [greedy, slotEndpoints] using hs
  | cons e es ih =>
    intro seen hs
    rw [greedy]
    by_cases h : e.1 ∈ seen ∨ e.2 ∈ seen
    · rw [if_pos h]
      exact ih (fun x hx => hne x (List.mem_cons_of_mem _ hx)) seen hs
    · rw [if_neg h]
      push_neg at h
      have hee : e.1 ≠ e.2 := hne e (List.mem_cons_self e es)
      have hs2 : (seen ++ [e.1, e.2]).Nodup := by
        refine List.Nodup.append hs ?_ ?_
        · simp [hee]
        · intro x hx hmem
          simp only [List.mem_cons, List.mem_singleton, List.not_mem_nil, or_false] at hmem
          rcases hmem with h1 | h2
          · exact h.1 (h1 ▸ hx)
          · exact h.2 (h2 ▸ hx)
      have := ih (fun x hx => hne x (List.mem_cons_of_mem _ hx)) (seen ++ [e.1, e.2]) hs2
      simpa [slotEndpoints, List.append_assoc] using this

/-- One pass of the source's inner loop, started in an arbitrary state,
equals the pure greedy pass over the not-yet-used edges (for a
duplicate-free edge list). -/
theorem foldl_slotStep_eq (es : List Edge) :
    ∀ (s : List Edge) (seen : List String) (u : List Edge), es.Nodup →
    es.foldl slotStep ⟨s, seen, u⟩ =
      ⟨s ++ greedy seen (es.filter (fun e => decide (e ∉ u))),
       seen ++ slotEndpoints (greedy seen (es.filter (fun e => decide (e ∉ u)))),
       u ++ greedy seen (es.filter (fun e => decide (e ∉ u)))⟩ := by
  induction es with
  | nil =>
    intro s seen u _
    simp [greedy, slotEndpoints]
  | cons e es ih =>
    intro s seen u hnd
    rw [List.foldl_cons]
    by_cases hu : e ∈ u
    · have hstep : slotStep ⟨s, seen, u⟩ e = ⟨s, seen, u⟩ := by
        simp [slotStep, hu]
      have hf : (e :: es).filter (fun e => decide (e ∉ u)) =
          es.filter (fun e => decide (e ∉ u)) := by
        simp [List.filter_cons, hu]
      rw [hstep, hf]
      exact ih s seen u hnd.of_cons
    · have hf : (e :: es).filter (fun e => decide (e ∉ u)) =
          e :: es.filter (fun e => decide (e ∉ u)) := by
        simp [List.filter_cons, hu]
      rw [hf]
      by_cases hseen : e.1 ∈ seen ∨ e.2 ∈ seen
      · have hstep : slotStep ⟨s, seen, u⟩ e = ⟨s, seen, u⟩ := by
          simp [slotStep, hu, hseen]
        have hg : greedy seen (e :: es.filter (fun e => decide (e ∉ u))) =
            greedy seen (es.filter (fun e => decide (e ∉ u))) := by
          rw [greedy, if_pos hseen]
        rw [hstep, hg]
        exact ih s seen u hnd.of_cons
      · have hstep : slotStep ⟨s, seen, u⟩ e =
            ⟨s ++ [e], seen ++ [e.1, e.2], u ++ [e]⟩ := by
          simp [slotStep, hu, hseen]
        have hg : greedy seen (e :: es.filter (fun e => decide (e ∉ u))) =
            e :: greedy (seen ++ [e.1, e.2]) (es.filter (fun e => decide (e ∉ u))) := by
          rw [greedy, if_neg hseen]
        have hfe : es.filter (fun x => decide (x ∉ u ++ [e])) =
            es.filter (fun x => decide (x ∉ u)) := by
          apply List.filter_congr
          intro x hx
          have hxe : x ≠ e := fun h => (List.nodup_cons.mp hnd).1 (h ▸ hx)
          simp [List.mem_append, hxe]
        rw [hstep]
        rw [ih (s ++ [e]) (seen ++ [e.1, e.2]) (u ++ [e]) hnd.of_cons, hfe, hg]
        simp [slotEndpoints, List.append_assoc]

/-- `slotPass` in terms of the pure greedy pass. -/
theorem slotPass_spec {edges : List Edge} (hnd : edges.Nodup) (used : List Edge) :
    slotPass edges used =
      ⟨greedy [] (edges.filter (fun e => decide (e ∉ used))),
       slotEndpoints (greedy [] (edges.filter (fun e => decide (e ∉ used)))),
       used ++ greedy [] (edges.filter (fun e => decide (e ∉ used)))⟩ := by
  unfold slotPass
  rw [foldl_slotStep_eq edges [] [] used hnd]
  simp

/-! ## The schedule loop: every candidate edge lands in exactly one slot -/

/-- A duplicate-free list contained in another is no longer than it. -/
theorem nodup_subset_length_le {α : Type _} {l1 l2 : List α}
    (h1 : l1.Nodup) (h2 : l1 ⊆ l2) : l1.length ≤ l2.length :=
  (List.subperm_of_subset h1 h2).length_le

/-- In a duplicate-free list every member occurs exactly once (stated for an
arbitrary lawful `BEq`, matching the instance `List.count` picks up). -/
theorem count_eq_one_of_nodup_mem {α : Type _} [BEq α] [LawfulBEq α]
    {l : List α} {a : α} (hn : l.Nodup) (ha : a ∈ l) : l.count a = 1 := by
  induction l with
  | nil => exact absurd ha (List.not_mem_nil a)
  | cons x l ih =>
    rw [List.count_cons]
    rcases List.mem_cons.mp ha with h | h
    · have hx : x ∉ l := (List.nodup_cons.mp hn).1
      subst h
      have h0 : l.count a = 0 := List.count_eq_zero.mpr hx
      simp [h0]
    · have hne : x ≠ a := by
        intro hxa
        exact (List.nodup_cons.mp hn).1 (hxa ▸ h)
      have h1 : l.count a = 1 := ih (List.nodup_cons.mp hn).2 h
      simp [h1, hne]

/-- A duplicate-free sub-collection of maximal size exhausts its host. -/
theorem subset_of_nodup_of_length_le {α : Type _} {used edges : List α}
    (hu : used.Nodup) (hsub : used ⊆ edges) (hlen : edges.length ≤ used.length) :
    edges ⊆ used := by
  have hperm := (List.subperm_of_subset hu hsub).perm_of_length_le hlen
  intro x hx
  exact hperm.symm.subset hx

/-- Core loop invariant of `edge_coloring_schedule`: with enough fuel, the
slots the loop still emits contain each not-yet-used candidate edge exactly
once and nothing else (stated via `count`). -/
theorem scheduleAux_count {edges : List Edge} (he : edges.Nodup) :
    ∀ (fuel : ℕ) (used : List Edge), used.Nodup → used ⊆ edges →
      edges.length - used.length ≤ fuel → ∀ e : Edge,
      ((scheduleAux edges fuel used).flatten).count e =
        (edges.filter (fun x => decide (x ∉ used))).count e := by
  intro fuel
  induction fuel with
  | zero =>
    intro used hu hsub hlen e
    have h1 : edges.length ≤ used.length := by omega
    have h2 : edges ⊆ used := subset_of_nodup_of_length_le hu hsub h1
    have h3 : edges.filter (fun x => decide (x ∉ used)) = [] := by
      refine List.filter_eq_nil_iff.mpr ?_
      intro a ha
      simpa using h2 ha
    rw [h3]
    simp [scheduleAux]
  | succ fuel ih =>
    intro used hu hsub hlen e
    by_cases hcond : used.length < edges.length
    · have hsp := slotPass_spec he used
      set rem := edges.filter (fun x => decide (x ∉ used)) with hrem
      set g := greedy [] rem with hgdef
      have hunf : scheduleAux edges (fuel + 1) used =
          g :: scheduleAux edges fuel (used ++ g) := by
        simp only [scheduleAux, if_pos hcond, hsp]
      rw [hunf, List.flatten_cons, List.count_append]
      have hgsub_rem : g ⊆ rem := (greedy_sublist [] rem).subset
      have hrem_nodup : rem.Nodup := he.filter _
      have hg_nodup : g.Nodup := (greedy_sublist [] rem).nodup hrem_nodup
      have hg_sub_edges : g ⊆ edges := fun x hx => List.mem_of_mem_filter (hgsub_rem hx)
      have hdisj : ∀ x ∈ used, x ∉ g := by
        intro x hx hxg
        have hxrem := hgsub_rem hxg
        rw [List.mem_filter] at hxrem
        have hnot : x ∉ used := by simpa using hxrem.2
        exact hnot hx
      have hu' : (used ++ g).Nodup := List.Nodup.append hu hg_nodup hdisj
      have hsub' : (used ++ g) ⊆ edges := by
        intro x hx
        rcases List.mem_append.mp hx with h | h
        · exact hsub h
        · exact hg_sub_edges h
      have hremne : rem ≠ [] := by
        intro h0
        have hall : ∀ x ∈ edges, x ∈ used := by
          intro x hx
          by_contra hxu
          have hxrem : x ∈ rem := by
            rw [hrem, List.mem_filter]
            exact ⟨hx, by simpa using hxu⟩
          rw [h0] at hxrem
          exact absurd hxrem (List.not_mem_nil x)
        have : edges.length ≤ used.length := nodup_subset_length_le he hall
        omega
      have hgne : g ≠ [] := greedy_ne_nil hremne
      have hlen' : edges.length - (used ++ g).length ≤ fuel := by
        have h1 : 1 ≤ g.length := List.length_pos.mpr hgne
        rw [List.length_append]
        omega
      rw [ih (used ++ g) hu' hsub' hlen' e]
      have hfilter2 : edges.filter (fun x => decide (x ∉ used ++ g)) =
          rem.filter (fun x => decide (x ∉ g)) := by
        rw [hrem, List.filter_filter]
        apply List.filter_congr
        intro x _
        simp only [List.mem_append, not_or, decide_not, Bool.decide_and]
        rw [Bool.and_comm]
      rw [hfilter2]
      by_cases hein : e ∈ g
      · have h1 : g.count e = 1 := count_eq_one_of_nodup_mem hg_nodup hein
        have h2 : (rem.filter (fun x => decide (x ∉ g))).count e = 0 := by
          apply List.count_eq_zero_of_not_mem
          intro hmem
          rw [List.mem_filter] at hmem
          have hnot : e ∉ g := by simpa using hmem.2
          exact hnot hein
        have h3 : rem.count e = 1 :=
          count_eq_one_of_nodup_mem hrem_nodup (hgsub_rem hein)
        omega
      · have h1 : g.count e = 0 := List.count_eq_zero_of_not_mem hein
        have h2 : (rem.filter (fun x => decide (x ∉ g))).count e = rem.count e := by
          have hd : decide (e ∉ g) = true := by simpa using hein
          exact List.count_filter hd
        omega
    · have h1 : edges.length ≤ used.length := Nat.le_of_not_lt hcond
      have h2 : edges ⊆ used := subset_of_nodup_of_length_le hu hsub h1
      have h3 : edges.filter (fun x => decide (x ∉ used)) = [] := by
        refine List.filter_eq_nil_iff.mpr ?_
        intro a ha
        simpa using h2 ha
      rw [h3]
      simp [scheduleAux, hcond]

/-- Every slot the loop emits is a matching: its endpoint list (initiators
and responders together) has no duplicate. -/
theorem scheduleAux_slots_matching {edges : List Edge} (he : edges.Nodup)
    (hirr : ∀ e ∈ edges, e.1 ≠ e.2) :
    ∀ (fuel : ℕ) (used : List Edge), ∀ slot ∈ scheduleAux edges fuel used,
      (slotEndpoints slot).Nodup := by
  intro fuel
  induction fuel with
  | zero =>
    intro used slot h
    simp [scheduleAux] at h
  | succ fuel ih =>
    intro used slot h
    by_cases hcond : used.length < edges.length
    · simp only [scheduleAux, if_pos hcond, slotPass_spec he used, List.mem_cons] at h
      rcases h with h | h
      · subst h
        have hirr2 : ∀ e ∈ edges.filter (fun x => decide (x ∉ used)), e.1 ≠ e.2 :=
          fun e hx => hirr e (List.mem_of_mem_filter hx)
        have := greedy_endpoints_nodup hirr2 [] List.nodup_nil
        simpa using this
      · exact ih (used ++ greedy [] (edges.filter (fun x => decide (x ∉ used)))) slot h
    · simp [scheduleAux, if_neg hcond] at h

/-- A slot with duplicate-free endpoints passes the source's verification
loop without raising `ValueError`. -/
theorem verify_slot_of_nodup :
    ∀ (seen : List String) (s : List Edge),
      (seen ++ slotEndpoints s).Nodup → verify_slot seen s = true := by
  intro seen s
  induction s generalizing seen with
  | nil => intro _; rfl
  | cons e s ih =>
    intro h
    have h' : ((seen ++ [e.1, e.2]) ++ slotEndpoints s).Nodup := by
      simpa [slotEndpoints, List.append_assoc] using h
    have hsub : (seen ++ [e.1, e.2]).Nodup :=
      (List.sublist_append_left (seen ++ [e.1, e.2]) (slotEndpoints s)).nodup h'
    have hd := List.disjoint_of_nodup_append hsub
    rw [verify_slot]
    rw [if_neg ?_]
    · exact ih (seen ++ [e.1, e.2]) h'
    · intro hor
      rcases hor with h1 | h2
      · exact hd h1 (by simp)
      · exact hd h2 (by simp)

/-! ## Claim theorems for the Schedule Builder -/

/-- C1: for every duplicate-free node list and every non-initiator set, the
schedule contains each ordered pair `(a, b)` of distinct nodes whose
initiator `a` is not a non-initiator exactly once across all slots, and
contains no pair outside this candidate set (multiplicity in the flattened
schedule is 1, respectively 0). -/
theorem c1_edge_coloring_schedule_pairs_once (nodes obs : List String)
    (hn : nodes.Nodup) (a b : String) :
    ((edge_coloring_schedule nodes obs).flatten).count (a, b) =
      if a ∈ nodes ∧ b ∈ nodes ∧ a ≠ b ∧ a ∉ obs then 1 else 0 := by
  have hce : (candidate_edges nodes obs).Nodup := candidate_edges_nodup hn
  have hkey := scheduleAux_count hce (candidate_edges nodes obs).length []
    List.nodup_nil (List.nil_subset _) (by omega) (a, b)
  have hdef : edge_coloring_schedule nodes obs =
      scheduleAux (candidate_edges nodes obs) (candidate_edges nodes obs).length [] := rfl
  have hfid : (candidate_edges nodes obs).filter (fun x => decide (x ∉ ([] : List Edge))) =
      candidate_edges nodes obs := by
    simp
  rw [hdef, hkey, hfid]
  by_cases hmem : a ∈ nodes ∧ b ∈ nodes ∧ a ≠ b ∧ a ∉ obs
  · rw [if_pos hmem]
    exact count_eq_one_of_nodup_mem hce ((mem_candidate_edges hn a b).mpr hmem)
  · rw [if_neg hmem]
    apply List.count_eq_zero_of_not_mem
    intro hc
    exact hmem ((mem_candidate_edges hn a b).mp hc)

/-- Witness for C1 at the concrete input `nodes = ["a", "b"]`, `obs = []`. -/
theorem c1_edge_coloring_schedule_pairs_once_witness :
    (["a", "b"] : List String).Nodup ∧
      ((edge_coloring_schedule ["a", "b"] []).flatten).count ("a", "b") =
        if "a" ∈ (["a", "b"] : List String) ∧ "b" ∈ (["a", "b"] : List String) ∧
            "a" ≠ "b" ∧ "a" ∉ ([] : List String) then 1 else 0 :=
  ⟨by decide, c1_edge_coloring_schedule_pairs_once ["a", "b"] [] (by decide) "a" "b"⟩

/-- C2: for every duplicate-free node list and every non-initiator set, each
slot of the schedule is a matching (no address occurs twice among that
slot's initiators and responders), and the post-construction verification
pass of `edge_coloring_schedule` succeeds, i.e. never raises `ValueError`. -/
theorem c2_schedule_slots_are_matchings (nodes obs : List String)
    (hn : nodes.Nodup) :
    (∀ slot ∈ edge_coloring_schedule nodes obs, (slotEndpoints slot).Nodup) ∧
      schedule_ok (edge_coloring_schedule nodes obs) = true := by
  have hce : (candidate_edges nodes obs).Nodup := candidate_edges_nodup hn
  have hm : ∀ slot ∈ edge_coloring_schedule nodes obs, (slotEndpoints slot).Nodup := by
    intro slot hs
    exact scheduleAux_slots_matching hce (candidate_edges_irrefl hn)
      (candidate_edges nodes obs).length [] slot hs
  refine ⟨hm, ?_⟩
  unfold schedule_ok
  rw [List.all_eq_true]
  intro s hs
  have h0 : (([] : List String) ++ slotEndpoints s).Nodup := by
    simpa using hm s hs
  simpa using verify_slot_of_nodup [] s h0

/-- Witness for C2 at the concrete input `nodes = ["a", "b"]`, `obs = []`. -/
theorem c2_schedule_slots_are_matchings_witness :
    (["a", "b"] : List String).Nodup ∧
      ((∀ slot ∈ edge_coloring_schedule ["a", "b"] [], (slotEndpoints slot).Nodup) ∧
        schedule_ok (edge_coloring_schedule ["a", "b"] []) = true) :=
  ⟨by decide, c2_schedule_slots_are_matchings ["a", "b"] [] (by decide)⟩

/-- The two textual copies of the inner loop body agree. -/
theorem schedule_tester_slotStep_eq : ScheduleTester.slotStep = slotStep := rfl

/-- The two textual copies of one pass agree. -/
theorem schedule_tester_slotPass_eq : ScheduleTester.slotPass = slotPass := rfl

/-- The two textual copies of the `while` loop agree at every fuel. -/
theorem schedule_tester_scheduleAux_eq (edges : List Edge) :
    ∀ (fuel : ℕ) (used : List Edge),
      ScheduleTester.scheduleAux edges fuel used = scheduleAux edges fuel used := by
  intro fuel
  induction fuel with
  | zero => intro used; rfl
  | succ fuel ih =>
    intro used
    simp only [ScheduleTester.scheduleAux, scheduleAux, schedule_tester_slotPass_eq]
    by_cases h : used.length < edges.length
    · rw [if_pos h, if_pos h, ih]
    · rw [if_neg h, if_neg h]

/-- C3: the duplicated `edge_coloring_schedule` in `schedule_tester.py`
computes exactly the same schedule as the monitor's copy on every input;
both are pure functions of the node list and non-initiator set, so two
independent computations from identical configuration agree exactly (and
hence serialize byte-for-byte identically under any deterministic
serialization). -/
theorem c3_schedule_tester_same_schedule (nodes obs : List String) :
    ScheduleTester.edge_coloring_schedule nodes obs =
      edge_coloring_schedule nodes obs := by
  have hp : ScheduleTester.permutations2 = permutations2 := rfl
  simp only [ScheduleTester.edge_coloring_schedule, edge_coloring_schedule, hp]
  exact schedule_tester_scheduleAux_eq _ _ _

/-- C8: with zero or one node the schedule is empty (no slots), whatever
the non-initiator set. -/
theorem c8_degenerate_node_sets_empty_schedule :
    (∀ obs : List String, edge_coloring_schedule [] obs = []) ∧
      (∀ (x : String) (obs : List String), edge_coloring_schedule [x] obs = []) :=
  ⟨fun _ => rfl, fun _ _ => rfl⟩

/-! ## Claim theorems for the slot clock and timing constants -/

/-- The slot length is positive. -/
theorem slot_length_pos : (0 : ℚ) < SLOT_LENGTH := by
  norm_num [SLOT_LENGTH, IPERF_TIME, IPERF_TIMEOUT_BUFFER, PING_TIMEOUT_BUFFER,
    GENERAL_TIMING_BUFFER]

/-- A time between two consecutive multiples of the slot length has that
multiple's index as its floor quotient. -/
theorem slot_floor_eq (k : ℤ) (now : ℚ)
    (h1 : (k : ℚ) * SLOT_LENGTH ≤ now)
    (h2 : now < ((k : ℚ) + 1) * SLOT_LENGTH) :
    Int.floor (now / SLOT_LENGTH) = k := by
  rw [Int.floor_eq_iff]
  constructor
  · rw [le_div_iff₀ slot_length_pos]
    exact h1
  · rw [div_lt_iff₀ slot_length_pos]
    linarith

/-- C7: the slot clock is a pure function of the current time: two times in
the same slot (between the same consecutive multiples of `SLOT_LENGTH`) get
the same `slot_start`, and a time in the immediately following slot gets the
successor slot index modulo `num_slots`. -/
theorem c7_slot_clock_pure (n k : ℕ) (now1 now2 now3 : ℚ) (_hn : 1 ≤ n)
    (h1 : (k : ℚ) * SLOT_LENGTH ≤ now1) (h12 : now1 ≤ now2)
    (h2 : now2 < ((k : ℚ) + 1) * SLOT_LENGTH)
    (h3 : ((k : ℚ) + 1) * SLOT_LENGTH ≤ now3)
    (h4 : now3 < ((k : ℚ) + 2) * SLOT_LENGTH) :
    slot_start now1 = slot_start now2 ∧
      slot_index now3 n = (slot_index now1 n + 1) % n := by
  have hf1 : Int.floor (now1 / SLOT_LENGTH) = (k : ℤ) := by
    apply slot_floor_eq
    · exact_mod_cast h1
    · push_cast
      linarith
  have hf2 : Int.floor (now2 / SLOT_LENGTH) = (k : ℤ) := by
    apply slot_floor_eq
    · have hk : (((k : ℤ) : ℚ)) = (k : ℚ) := by push_cast; rfl
      rw [hk]
      linarith
    · push_cast
      linarith
  have hf3 : Int.floor (now3 / SLOT_LENGTH) = (k : ℤ) + 1 := by
    apply slot_floor_eq
    · push_cast
      linarith
    · push_cast
      linarith
  constructor
  · unfold slot_start
    rw [hf1, hf2]
  · unfold slot_index
    rw [hf1, hf3]
    have e1 : (k : ℤ) + 1 = ((k + 1 : ℕ) : ℤ) := by push_cast; ring
    rw [e1, Int.ofNat_mod_ofNat, Int.toNat_ofNat, Int.ofNat_mod_ofNat, Int.toNat_ofNat]
    conv_lhs => rw [Nat.add_mod]
    conv_rhs => rw [Nat.add_mod]
    rw [Nat.mod_mod_of_dvd k (dvd_refl n)]

/-- Witness for C7 at `n = 2`, `k = 0`, `now1 = 0`, `now2 = 1`, `now3 = 2`. -/
theorem c7_slot_clock_pure_witness :
    1 ≤ 2 ∧ ((0 : ℕ) : ℚ) * SLOT_LENGTH ≤ 0 ∧ (0 : ℚ) ≤ 1 ∧
      (1 : ℚ) < (((0 : ℕ) : ℚ) + 1) * SLOT_LENGTH ∧
      (((0 : ℕ) : ℚ) + 1) * SLOT_LENGTH ≤ 2 ∧
      (2 : ℚ) < (((0 : ℕ) : ℚ) + 2) * SLOT_LENGTH ∧
      (slot_start 0 = slot_start 1 ∧ slot_index 2 2 = (slot_index 0 2 + 1) % 2) := by
  have h1 : ((0 : ℕ) : ℚ) * SLOT_LENGTH ≤ 0 := by norm_num
  have h12 : (0 : ℚ) ≤ 1 := by norm_num
  have h2 : (1 : ℚ) < (((0 : ℕ) : ℚ) + 1) * SLOT_LENGTH := by
    norm_num [SLOT_LENGTH, IPERF_TIME, IPERF_TIMEOUT_BUFFER, PING_TIMEOUT_BUFFER,
      GENERAL_TIMING_BUFFER]
  have h3 : (((0 : ℕ) : ℚ) + 1) * SLOT_LENGTH ≤ 2 := by
    norm_num [SLOT_LENGTH, IPERF_TIME, IPERF_TIMEOUT_BUFFER, PING_TIMEOUT_BUFFER,
      GENERAL_TIMING_BUFFER]
  have h4 : (2 : ℚ) < (((0 : ℕ) : ℚ) + 2) * SLOT_LENGTH := by
    norm_num [SLOT_LENGTH, IPERF_TIME, IPERF_TIMEOUT_BUFFER, PING_TIMEOUT_BUFFER,
      GENERAL_TIMING_BUFFER]
  exact ⟨by norm_num, h1, h12, h2, h3, h4,
    c7_slot_clock_pure 2 0 0 1 2 (by norm_num) h1 h12 h2 h3 h4⟩

/-- C4 counterexample: at `now = 0` the tick is inside the execution window,
yet the ping timeout (0.15 s) is NOT strictly smaller than the remaining
execution window (at most `GENERAL_TIMING_BUFFER = 0.1` s); the claim as
stated fails at every launch. -/
theorem c4_ping_timeout_not_lt_window :
    now_is_in_start_window 0 ∧
      ¬ (PING_TIMEOUT_BUFFER < end_start_window 0 - 0) := by
  have hs : slot_start 0 = 0 := by
    unfold slot_start
    rw [zero_div, Int.floor_zero]
    norm_num
  constructor
  · unfold now_is_in_start_window end_start_window
    rw [hs]
    norm_num [GENERAL_TIMING_BUFFER]
  · unfold end_start_window
    rw [hs]
    norm_num [GENERAL_TIMING_BUFFER, PING_TIMEOUT_BUFFER]

/-- C4 amended: whenever the tick lies inside the execution window
(`slot_start <= now < end_start_window`), the ping timeout is strictly
smaller than the time remaining in the current SLOT (`slot_end - now`), not
in the execution window; indeed the whole worst-case slot work
(ping timeout + iperf duration + iperf timeout buffer) still fits. -/
theorem c4_ping_timeout_lt_remaining_slot (now : ℚ)
    (h : now_is_in_start_window now) :
    PING_TIMEOUT_BUFFER < slot_end now - now ∧
      PING_TIMEOUT_BUFFER + IPERF_TIME + IPERF_TIMEOUT_BUFFER ≤ slot_end now - now := by
  obtain ⟨h1, h2⟩ := h
  unfold end_start_window at h2
  unfold slot_end
  unfold SLOT_LENGTH at *
  unfold PING_TIMEOUT_BUFFER IPERF_TIME IPERF_TIMEOUT_BUFFER GENERAL_TIMING_BUFFER at *
  constructor <;> linarith

/-- Witness for the amended C4 at `now = 0`. -/
theorem c4_ping_timeout_lt_remaining_slot_witness :
    now_is_in_start_window 0 ∧
      (PING_TIMEOUT_BUFFER < slot_end 0 - 0 ∧
        PING_TIMEOUT_BUFFER + IPERF_TIME + IPERF_TIMEOUT_BUFFER ≤ slot_end 0 - 0) :=
  ⟨c4_ping_timeout_not_lt_window.1,
    c4_ping_timeout_lt_remaining_slot 0 c4_ping_timeout_not_lt_window.1⟩

/-! ## Claim theorems for the tick control flow -/

/-- C6: on any tick in which this node's resolved partner for the current
slot is not in the reachable set, no probe is invoked: the tick's action is
never the `probe` branch, which is the only branch calling `run_ping` /
`run_iperf` and the only branch publishing a ping or iperf outcome record. -/
theorem c6_unreachable_partner_no_probe (schedule : List (List Edge))
    (my_ip : String) (reachable : List String) (now : ℚ) (p : String)
    (hres : resolve_partner (schedule.getD (slot_index now schedule.length) []) my_ip
      = some p)
    (hreach : p ∉ reachable) :
    probe_target (edge_slot_runner_action schedule my_ip reachable now) = none := by
  unfold edge_slot_runner_action
  by_cases hempty : schedule = []
  · rw [if_pos hempty]
    rfl
  · rw [if_neg hempty]
    by_cases hwin : now_is_in_start_window now
    · rw [if_neg (not_not_intro hwin), hres]
      by_cases hp : p = ""
      · simp [hp, probe_target]
      · simp [hp, hreach, probe_target]
    · rw [if_pos hwin]
      rfl

/-- Witness for C6: a one-slot schedule, an empty reachable set, `now = 0`. -/
theorem c6_unreachable_partner_no_probe_witness :
    resolve_partner (([[("a", "b")]] : List (List Edge)).getD
        (slot_index 0 ([[("a", "b")]] : List (List Edge)).length) []) "a" = some "b" ∧
      "b" ∉ ([] : List String) ∧
      probe_target (edge_slot_runner_action [[("a", "b")]] "a" [] 0) = none := by
  have hfloor : Int.floor ((0 : ℚ) / SLOT_LENGTH) = 0 := by norm_num
  have hidx : slot_index 0 ([[("a", "b")]] : List (List Edge)).length = 0 := by
    unfold slot_index
    rw [hfloor]
    rfl
  have h1 : resolve_partner (([[("a", "b")]] : List (List Edge)).getD
      (slot_index 0 ([[("a", "b")]] : List (List Edge)).length) []) "a" = some "b" := by
    rw [hidx]
    rfl
  have h2 : "b" ∉ ([] : List String) := by decide
  exact ⟨h1, h2, c6_unreachable_partner_no_probe [[("a", "b")]] "a" [] 0 "b" h1 h2⟩

/-- C10: with an empty schedule every tick of `edge_slot_runner` returns
immediately through the `if not self.schedule` guard, before the slot index
(and its modulo by `num_slots`) is ever computed, so `num_slots = 0` never
reaches the modulo. -/
theorem c10_empty_schedule_tick_noop (my_ip : String) (reachable : List String)
    (now : ℚ) :
    edge_slot_runner_action [] my_ip reachable now = SlotAction.noSchedule := rfl

/-! ## Claim theorems for `run_iperf` and `EdgePayloadMonitor.__init__` -/

/-- C5 counterexample: when the iperf subprocess exits successfully but its
output is not valid JSON (the decode predicate rejects it), `run_iperf`
still publishes `ok = true` — the parse failure is absorbed but the record
is NOT classified as a failure, refuting the claim as stated. -/
theorem c5_invalid_json_ok_still_true :
    (fun _ : String => false) ((iperf_subproc_out (IperfSubproc.success "x")).1) = false ∧
      (run_iperf "10.0.0.1" (IperfSubproc.success "x") (fun _ => false)).ok = true := by
  constructor
  · rfl
  · rfl

/-- C5 amended: when the iperf output fails to parse as JSON, `run_iperf`
does not raise — it always builds and publishes exactly one record — whose
`raw` field is replaced by the fixed error marker and whose `ok` flag equals
the subprocess success flag (so the record reports a failure exactly when
the probe subprocess itself failed, e.g. non-zero exit or timeout). -/
theorem c5_invalid_json_absorbed (ip : String) (sub : IperfSubproc)
    (json_decodes : String → Bool)
    (hbad : json_decodes (iperf_subproc_out sub).1 = false) :
    (run_iperf ip sub json_decodes).raw = IPERF_INVALID_JSON ∧
      (run_iperf ip sub json_decodes).ok = (iperf_subproc_out sub).2 := by
  simp [run_iperf, hbad]

/-- Witness for the amended C5: a timed-out probe with unparseable output
is published with the error marker and `ok = false`. -/
theorem c5_invalid_json_absorbed_witness :
    (fun _ : String => false) ((iperf_subproc_out IperfSubproc.timeoutExpired).1) = false ∧
      ((run_iperf "10.0.0.1" IperfSubproc.timeoutExpired (fun _ => false)).raw =
          IPERF_INVALID_JSON ∧
        (run_iperf "10.0.0.1" IperfSubproc.timeoutExpired (fun _ => false)).ok =
          (iperf_subproc_out IperfSubproc.timeoutExpired).2) :=
  ⟨rfl, c5_invalid_json_absorbed "10.0.0.1" IperfSubproc.timeoutExpired (fun _ => false) rfl⟩

/-- C9: when the local hostname has no entry in the hostname-to-IP mapping,
`EdgePayloadMonitor.__init__` fails with the `RuntimeError` before any
schedule is built (the error branch is taken before
`edge_coloring_schedule` is ever invoked, and no monitor state — hence no
timer — is constructed). -/
theorem c9_unknown_hostname_fatal (hostname : String)
    (mapping : List (String × String)) (obs : List String)
    (hmiss : mapping.lookup hostname = none) :
    monitor_init hostname mapping obs =
      Except.error
        ("Unknown hostname " ++ hostname ++ ", cannot determine my IP address.") := by
  unfold monitor_init
  rw [hmiss]

/-- Witness for C9: a hostname absent from an empty mapping. -/
theorem c9_unknown_hostname_fatal_witness :
    (([] : List (String × String)).lookup "h1" = none) ∧
      monitor_init "h1" [] [] =
        Except.error
          ("Unknown hostname " ++ "h1" ++ ", cannot determine my IP address.") :=
  ⟨rfl, c9_unknown_hostname_fatal "h1" [] [] rfl⟩
